import Mathlib

/-
Verification of the schema-gen core: a shallow embedding of the type
inference engine (src/type-inference.ts), the four renderers
(generators/json-schema.ts, generators/typescript.ts, generators/zod.ts,
generators/api-doc.ts) and the orchestration facade (index.ts), together
with proofs of the specified properties.

JSON values are modelled by the inductive `Json`; numbers are modelled as
integers because no code path inspects a numeric value beyond its typeof
tag.  JavaScript objects cannot carry duplicate keys, so association
lists stand in for objects and the predicate `Json.wf` records the
key-uniqueness that JavaScript guarantees by construction.
-/

inductive Json where
  | null : Json
  | str (s : String) : Json
  | num (n : Int) : Json
  | bool (b : Bool) : Json
  | arr (items : List Json) : Json
  | obj (fields : List (String × Json)) : Json

/-
TypeKind mirrors `export type TypeKind = 'string' | 'number' | 'boolean'
| 'array' | 'object' | 'null'`.
-/
inductive TypeKind where
  | string | number | boolean | array | object | null
deriving Repr, DecidableEq

/-
TypeDefinition mirrors the interface of the same name.  The unused
optional field `enum` (declared in the source but never read or written
anywhere in the repository) is omitted; every other field is kept, with
absence of an optional field modelled by `none`.
-/
inductive TypeDefinition where
  | mk (kind : TypeKind) (properties : Option (List (String × TypeDefinition)))
       (items : Option TypeDefinition) (required : Option (List String))
       (description : Option String)

def TypeDefinition.kind : TypeDefinition → TypeKind
  | .mk k _ _ _ _ => k

def TypeDefinition.properties : TypeDefinition → Option (List (String × TypeDefinition))
  | .mk _ p _ _ _ => p

def TypeDefinition.items : TypeDefinition → Option TypeDefinition
  | .mk _ _ i _ _ => i

def TypeDefinition.required : TypeDefinition → Option (List String)
  | .mk _ _ _ r _ => r

def TypeDefinition.description : TypeDefinition → Option String
  | .mk _ _ _ _ d => d

/- `t.properties?.[p]` : the property named `p`, when `properties` is
present and holds the key. -/
def getProp (t : TypeDefinition) (p : String) : Option TypeDefinition :=
  match t.properties with
  | none => none
  | some l => l.lookup p

/- Truthiness of `t.properties?.[p]` (a TypeDefinition object is always
truthy, so this is exactly presence of the key). -/
def hasProp (t : TypeDefinition) (p : String) : Bool := (getProp t p).isSome

/- `Object.keys(t.properties)` when `properties` is present, else nothing
is contributed (the source guards with `if (type.properties)`). -/
def propKeys (t : TypeDefinition) : List String :=
  match t.properties with
  | none => []
  | some l => l.map Prod.fst

/- Size functions used for the termination of the merge algorithms. -/
mutual
def tdSize : TypeDefinition → Nat
  | .mk _ props itms _ _ => 1 + propsSize props + itmSize itms

def propsSize : Option (List (String × TypeDefinition)) → Nat
  | none => 0
  | some [] => 0
  | some ((_, t) :: rest) => 1 + tdSize t + propsSize (some rest)

def itmSize : Option TypeDefinition → Nat
  | none => 0
  | some t => 1 + tdSize t
end

def tlistSize (l : List TypeDefinition) : Nat := (l.map tdSize).sum

theorem tdSize_pos (t : TypeDefinition) : 0 < tdSize t := by
  obtain ⟨k, props, itms, req, d⟩ := t
  simp [tdSize]

theorem lookup_size {l : List (String × TypeDefinition)} {p : String} {r : TypeDefinition}
    (h : l.lookup p = some r) : tdSize r < 1 + propsSize (some l) := by
  induction l with
  | nil => simp [List.lookup] at h
  | cons hd tl ih =>
    obtain ⟨k, t⟩ := hd
    rw [List.lookup] at h
    by_cases hk : p == k
    · simp [hk] at h
      subst h
      simp [propsSize]
      omega
    · simp [hk] at h
      have := ih h
      simp [propsSize]
      omega

theorem getProp_size {t : TypeDefinition} {p : String} {r : TypeDefinition}
    (h : getProp t p = some r) : tdSize r < tdSize t := by
  obtain ⟨k, props, itms, req, d⟩ := t
  simp only [getProp, TypeDefinition.properties] at h
  match props with
  | none => simp at h
  | some l =>
    have := lookup_size h
    simp [tdSize]
    omega

theorem items_size {t : TypeDefinition} {r : TypeDefinition}
    (h : t.items = some r) : tdSize r < tdSize t := by
  obtain ⟨k, props, itms, req, d⟩ := t
  simp only [TypeDefinition.items] at h
  subst h
  simp [tdSize, itmSize]
  omega

theorem plist_mem_size {l : List (String × TypeDefinition)} {k : String} {v : TypeDefinition}
    (h : (k, v) ∈ l) : tdSize v < 1 + propsSize (some l) := by
  induction l with
  | nil => simp at h
  | cons hd tl ih =>
    obtain ⟨k2, v2⟩ := hd
    rw [List.mem_cons] at h
    rcases h with h | h
    · injection h with h1 h2
      subst h2
      simp [propsSize]
      omega
    · have := ih h
      simp [propsSize]
      omega

theorem tlistSize_filter_le (l : List TypeDefinition) (q : TypeDefinition → Bool) :
    tlistSize (l.filter q) ≤ tlistSize l := by
  induction l with
  | nil => simp [tlistSize]
  | cons hd tl ih =>
    by_cases hq : q hd <;> simp [tlistSize, List.filter, hq] at * <;> omega

theorem tlistSize_filterMap_lt (l : List TypeDefinition) (f : TypeDefinition → Option TypeDefinition)
    (hf : ∀ t r, f t = some r → tdSize r < tdSize t)
    (hx : ∃ t ∈ l, (f t).isSome) : tlistSize (l.filterMap f) < tlistSize l := by
  induction l with
  | nil => simp at hx
  | cons hd tl ih =>
    rw [List.filterMap_cons]
    match hfd : f hd with
    | none =>
      obtain ⟨t, ht, hs⟩ := hx
      rw [List.mem_cons] at ht
      rcases ht with ht | ht
      · subst ht; rw [hfd] at hs; simp at hs
      · have := ih ⟨t, ht, hs⟩
        have h0 : 0 < tdSize hd := tdSize_pos hd
        simp [tlistSize] at *
        omega
    | some r =>
      have hr := hf hd r hfd
      have hle : tlistSize (tl.filterMap f) ≤ tlistSize tl := by
        clear ih hx
        induction tl with
        | nil => simp [tlistSize]
        | cons h2 t2 ih2 =>
          rw [List.filterMap_cons]
          match hh : f h2 with
          | none =>
            simp [tlistSize] at *
            omega
          | some r2 =>
            have := hf h2 r2 hh
            simp [tlistSize] at *
            omega
      simp [tlistSize] at *
      omega

/-
First-seen-order duplicate removal: the JavaScript `Set` collects the
union of property names preserving first insertion order.
-/
def dedupAux : List String → List String → List String
  | [], _ => []
  | x :: xs, seen => if x ∈ seen then dedupAux xs seen else x :: dedupAux xs (x :: seen)

def dedupFirst (l : List String) : List String := dedupAux l []

/-
`inferType` (src/type-inference.ts, lines 22-73).  The source checks
`value === null`, then `typeof`, then `Array.isArray`; the `fieldName`
parameter is unused by the source and dropped.  The final `{kind:
'string'}` fallback is unreachable over the Json model (every
JSON-representable value is covered), mirroring the source comment.
-/
mutual
def inferType : Json → TypeDefinition
  | .null => .mk .null none none none none
  | .str _ => .mk .string none none none none
  | .num _ => .mk .number none none none none
  | .bool _ => .mk .boolean none none none none
  | .arr [] => .mk .array none (some (.mk .string none none none none)) none none
  | .arr (x :: _) => .mk .array none (some (inferType x)) none none
  | .obj fields => .mk .object (some (inferProps fields)) none (some (fields.map Prod.fst)) none

/- The `for (const key of keys) properties[key] = inferType(value[key])`
loop of the object branch. -/
def inferProps : List (String × Json) → List (String × TypeDefinition)
  | [] => []
  | (k, v) :: rest => (k, inferType v) :: inferProps rest
end

/-
`mergeTypes` and `mergeObjectTypeDefinitions`
(src/type-inference.ts, lines 106-186).  The body of the `for (const
propName of allPropertyNames)` loop is the named `mergePropEntry`
(carrying the non-empty input list as head and tail): per name it yields
the optional merged-property entry for `mergedProperties` (a Record,
insertion-ordered) and the zero-or-one-element contribution to
`requiredFields`; the loop's accumulation is their concatenation in
iteration order.  The empty-input case of `mergeObjectTypeDefinitions` —
where the loop body never runs — is unrolled to its result.
-/
mutual
def mergeTypes (types : List TypeDefinition) : TypeDefinition :=
  match types with
  | [] => .mk .null none none none none
  | [t] => t
  | t0 :: t1 :: rest =>
    let firstKind := t0.kind
    if (t0 :: t1 :: rest).all (fun t => t.kind = firstKind) then
      if h : firstKind = .array ∧ t0.items.isSome then
        let itemTypes := ((t0 :: t1 :: rest).filter (fun t => t.items.isSome)).filterMap
          (fun t => t.items)
        .mk .array none (some (mergeTypes itemTypes)) none none
      else if firstKind = .object then
        mergeObjectTypeDefinitions (t0 :: t1 :: rest)
      else
        t0
    else
      .mk .string none none none none
termination_by (tlistSize types, 2)
decreasing_by
  · apply Prod.Lex.left
    calc tlistSize (((t0 :: t1 :: rest).filter (fun t => t.items.isSome)).filterMap (fun t => t.items))
        < tlistSize ((t0 :: t1 :: rest).filter (fun t => t.items.isSome)) := by
          apply tlistSize_filterMap_lt
          · intro t r hr; exact items_size hr
          · refine ⟨t0, ?_, h.2⟩
            simp [List.mem_filter, h.2]
      _ ≤ tlistSize (t0 :: t1 :: rest) := tlistSize_filter_le _ _
  · apply Prod.Lex.right
    omega

def mergeObjectTypeDefinitions (types : List TypeDefinition) : TypeDefinition :=
  match types with
  | [] => .mk .object (some []) none (some []) none
  | t0 :: rest =>
    let allPropertyNames := dedupFirst ((t0 :: rest).flatMap propKeys)
    let entries := allPropertyNames.map (fun propName => mergePropEntry t0 rest propName)
    .mk .object (some (entries.filterMap Prod.fst)) none
      (some ((entries.map Prod.snd).flatten)) none
termination_by (tlistSize types, 1)
decreasing_by
  · apply Prod.Lex.right
    omega

def mergePropEntry (t0 : TypeDefinition) (rest : List TypeDefinition) (propName : String) :
    Option (String × TypeDefinition) × List String :=
  let appearsInCount := ((t0 :: rest).filter (fun t => hasProp t propName)).length
  if hc : appearsInCount = (t0 :: rest).length then
    let propertyTypes := (t0 :: rest).filterMap (fun t => getProp t propName)
    (some (propName, mergeTypes propertyTypes), [propName])
  else
    let propertyTypes := ((t0 :: rest).filter (fun t => hasProp t propName)).filterMap
      (fun t => getProp t propName)
    if hp : propertyTypes.length > 0 then
      (some (propName, mergeTypes propertyTypes), ([] : List String))
    else
      (none, ([] : List String))
termination_by (tlistSize (t0 :: rest), 0)
decreasing_by
  · apply Prod.Lex.left
    apply tlistSize_filterMap_lt
    · intro t r hr; exact getProp_size hr
    · have hall : ∀ t ∈ (t0 :: rest), hasProp t propName := by
        intro t ht
        by_contra hnot
        have : ((t0 :: rest).filter (fun t => hasProp t propName)).length < (t0 :: rest).length := by
          apply List.length_filter_lt_length_iff_exists.mpr
          exact ⟨t, ht, by simpa using hnot⟩
        omega
      exact ⟨t0, by simp, by simpa [hasProp] using hall t0 (by simp)⟩
  · apply Prod.Lex.left
    calc tlistSize (((t0 :: rest).filter (fun t => hasProp t propName)).filterMap (fun t => getProp t propName))
        < tlistSize ((t0 :: rest).filter (fun t => hasProp t propName)) := by
          apply tlistSize_filterMap_lt
          · intro t r hr; exact getProp_size hr
          · have hp' : (((t0 :: rest).filter (fun t => hasProp t propName)).filterMap
                (fun t => getProp t propName)).length > 0 := hp
            have hne : (t0 :: rest).filter (fun t => hasProp t propName) ≠ [] := by
              intro hcon; rw [hcon] at hp'; simp at hp'
            obtain ⟨u, hu⟩ := List.exists_mem_of_ne_nil _ hne
            refine ⟨u, hu, ?_⟩
            have := List.of_mem_filter hu
            simpa [hasProp] using this
      _ ≤ tlistSize (t0 :: rest) := tlistSize_filter_le _ _
end

/-
`inferTypeFromExamples` (src/type-inference.ts, lines 79-101).
`allTypes.find(t => t.kind !== 'null') || {kind: 'null'}` is `find?`
followed by a default (a found TypeDefinition object is always truthy).
-/
def inferTypeFromExamples (examples : List Json) : TypeDefinition :=
  match examples with
  | [] => .mk .null none none none none
  | [e] => inferType e
  | e0 :: e1 :: rest =>
    let allTypes := (e0 :: e1 :: rest).map inferType
    let allAreObjects := allTypes.all (fun t => t.kind = .object)
    if allAreObjects then
      mergeObjectTypeDefinitions (allTypes.filter (fun t => t.kind = .object))
    else
      (allTypes.find? (fun t => !(t.kind = .null))).getD (.mk .null none none none none)

/- `'  '.repeat(n)` -/
def strRepeat (s : String) (n : Nat) : String := String.join (List.replicate n s)

/- Characters referenced positionally to keep the source text plain. -/
def lBraceChar : Char := Char.ofNat 123
def lBrackChar : Char := Char.ofNat 91
def pipeChar : Char := Char.ofNat 124
def singleQuote : String := String.singleton (Char.ofNat 39)

/-
`convertTypeToJsonSchema` (src/generators/json-schema.ts).  The result is
the JavaScript object the function builds, modelled as a `Json` value;
`generateJsonSchema` then serializes it.  The `default` branch returning
`{type: 'string'}` is unreachable: `TypeKind` is exhaustive.
-/
mutual
def convertTypeToJsonSchema (typeDef : TypeDefinition) : Json :=
  match typeDef with
  | .mk .string _ _ _ _ => .obj [("type", .str "string")]
  | .mk .number _ _ _ _ => .obj [("type", .str "number")]
  | .mk .boolean _ _ _ _ => .obj [("type", .str "boolean")]
  | .mk .null _ _ _ _ => .obj [("type", .str "null")]
  | .mk .array _ itms _ _ =>
      .obj [("type", .str "array"),
            ("items", match itms with
                      | some i => convertTypeToJsonSchema i
                      | none => .obj [("type", .str "string")])]
  | .mk .object props _ req _ =>
      let properties : List (String × Json) :=
        match props with
        | none => []
        | some l => convertSchemaProps l
      let required : List String := match req with | none => [] | some r => r
      .obj ([("type", .str "object")]
        ++ (if properties.length > 0 then [("properties", Json.obj properties)] else [])
        ++ (if required.length > 0 then [("required", Json.arr (required.map Json.str))] else []))

def convertSchemaProps : List (String × TypeDefinition) → List (String × Json)
  | [] => []
  | (k, v) :: rest => (k, convertTypeToJsonSchema v) :: convertSchemaProps rest
end

/- JSON.stringify(-, null, 2) string escaping. -/
def hexDigit (n : Nat) : String :=
  String.singleton (Char.ofNat (if n < 10 then 48 + n else 87 + n))

def escapeJsonChar (c : Char) : String :=
  if c = '"' then "\\\""
  else if c = '\\' then "\\\\"
  else if c = '\n' then "\\n"
  else if c = '\r' then "\\r"
  else if c = '\t' then "\\t"
  else if c.toNat = 8 then "\\b"
  else if c.toNat = 12 then "\\f"
  else if c.toNat < 32 then "\\u00" ++ hexDigit (c.toNat / 16) ++ hexDigit (c.toNat % 16)
  else String.singleton c

def quoteJs (s : String) : String :=
  "\"" ++ String.join (s.toList.map escapeJsonChar) ++ "\""

/- JSON.stringify(-, null, 2): two-space pretty printing. -/
mutual
def jsonStringify (j : Json) (indent : Nat) : String :=
  match j with
  | .null => "null"
  | .bool b => if b then "true" else "false"
  | .num n => toString n
  | .str s => quoteJs s
  | .arr l =>
      match l with
      | [] => "[]"
      | _ :: _ =>
          "[\n" ++ String.intercalate ",\n" (jsonStringifyItems l (indent + 1)) ++ "\n"
            ++ strRepeat "  " indent ++ "]"
  | .obj l =>
      match l with
      | [] => "\x7b\x7d"
      | _ :: _ =>
          "\x7b\n" ++ String.intercalate ",\n" (jsonStringifyFields l (indent + 1)) ++ "\n"
            ++ strRepeat "  " indent ++ "\x7d"

def jsonStringifyItems : List Json → Nat → List String
  | [], _ => []
  | x :: xs, indent =>
      (strRepeat "  " indent ++ jsonStringify x indent) :: jsonStringifyItems xs indent

def jsonStringifyFields : List (String × Json) → Nat → List String
  | [], _ => []
  | (k, v) :: xs, indent =>
      (strRepeat "  " indent ++ quoteJs k ++ ": " ++ jsonStringify v indent)
        :: jsonStringifyFields xs indent
end

/- Fields of a Json object (used for the `...convertTypeToJsonSchema(typeDef)`
object spread; the spread argument is always an object). -/
def jsonFields : Json → List (String × Json)
  | .obj fs => fs
  | _ => []

/-
`generateJsonSchema` (src/generators/json-schema.ts).  The spread keys of
the converted node (`type`, `properties`, `required`, `items`) never
collide with the four header keys, so the spread is a plain append.  The
`{typeName, typeDef}` options object becomes two parameters.
-/
def generateJsonSchema (typeName : String) (typeDef : TypeDefinition) : String :=
  let schema := Json.obj ([
    ("$schema", .str "http://json-schema.org/draft-07/schema#"),
    ("$id", .str ("https://example.com/schemas/" ++ typeName ++ ".json")),
    ("title", .str typeName),
    ("description", .str ("Auto-generated schema for " ++ typeName))]
    ++ jsonFields (convertTypeToJsonSchema typeDef))
  jsonStringify schema 0

/-
`convertTypeToTypeScript` (src/generators/typescript.ts, lines 25-73).
The per-field lambda of the object branch is the named `tsFieldLine`; the
`default: return 'any'` branch is unreachable (`TypeKind` is exhaustive).
-/
mutual
def convertTypeToTypeScript (typeDef : TypeDefinition) (indent : Nat) : String :=
  let indentation := strRepeat "  " indent
  match typeDef with
  | .mk .string _ _ _ _ => "string"
  | .mk .number _ _ _ _ => "number"
  | .mk .boolean _ _ _ _ => "boolean"
  | .mk .null _ _ _ _ => "null"
  | .mk .array _ itms _ _ =>
      match itms with
      | some i =>
          let itemType := convertTypeToTypeScript i indent
          if itemType.contains pipeChar || itemType.contains lBraceChar
              || itemType.contains lBrackChar then
            "Array<" ++ itemType ++ ">"
          else
            itemType ++ "[]"
      | none => "any[]"
  | .mk .object props _ req _ =>
      match props with
      | none => "Record<string, any>"
      | some l =>
          if l.length = 0 then "Record<string, any>"
          else
            let requiredFields : List String := match req with | none => [] | some r => r
            let fields := String.intercalate "\n" (tsFields requiredFields indent l)
            "\x7b\n" ++ fields ++ "\n" ++ indentation ++ "\x7d"
termination_by (tdSize typeDef, 0)
decreasing_by
  · apply Prod.Lex.left
    simp [tdSize, itmSize]
    omega
  · apply Prod.Lex.left
    simp [tdSize]
    omega

def tsFields (requiredFields : List String) (indent : Nat) :
    List (String × TypeDefinition) → List String
  | [] => []
  | (k, v) :: rest =>
      tsFieldLine requiredFields indent k v :: tsFields requiredFields indent rest
termination_by l => (propsSize (some l), 2)
decreasing_by
  · apply Prod.Lex.left
    have := tdSize_pos v
    simp [propsSize] <;> omega
  · apply Prod.Lex.left
    have := tdSize_pos v
    simp [propsSize] <;> omega

def tsFieldLine (requiredFields : List String) (indent : Nat) (key : String)
    (value : TypeDefinition) : String :=
  let fieldType := convertTypeToTypeScript value (indent + 1)
  let isOptional := !(requiredFields.contains key)
  strRepeat "  " indent ++ "  " ++ key ++ (if isOptional then "?" else "") ++ ": "
    ++ fieldType ++ ";"
termination_by (tdSize value, 1)
decreasing_by
  · apply Prod.Lex.right
    omega
end

def generateTypeScript (typeName : String) (typeDef : TypeDefinition) : String :=
  "export interface " ++ typeName ++ " " ++ convertTypeToTypeScript typeDef 0

/-
`convertTypeToZod` (src/generators/zod.ts).  The per-field lambda of the
object branch is the named `zodFieldLine`; the `default: return
'z.any()'` branch is unreachable.
-/
mutual
def convertTypeToZod (typeDef : TypeDefinition) (indent : Nat) : String :=
  let indentation := strRepeat "  " indent
  match typeDef with
  | .mk .string _ _ _ _ => "z.string()"
  | .mk .number _ _ _ _ => "z.number()"
  | .mk .boolean _ _ _ _ => "z.boolean()"
  | .mk .null _ _ _ _ => "z.null()"
  | .mk .array _ itms _ _ =>
      match itms with
      | some i =>
          let itemSchema := convertTypeToZod i indent
          if itemSchema.contains '\n' then
            "z.array(\n" ++ indentation ++ "  " ++ itemSchema ++ "\n" ++ indentation ++ ")"
          else
            "z.array(" ++ itemSchema ++ ")"
      | none => "z.array(z.any())"
  | .mk .object props _ req _ =>
      match props with
      | none => "z.record(z.any())"
      | some l =>
          if l.length = 0 then "z.record(z.any())"
          else
            let requiredFields : List String := match req with | none => [] | some r => r
            let fields := String.intercalate "\n" (zodFields requiredFields indent l)
            "z.object(\x7b\n" ++ fields ++ "\n" ++ indentation ++ "\x7d)"
termination_by (tdSize typeDef, 0)
decreasing_by
  · apply Prod.Lex.left
    simp [tdSize, itmSize]
    omega
  · apply Prod.Lex.left
    simp [tdSize]
    omega

def zodFields (requiredFields : List String) (indent : Nat) :
    List (String × TypeDefinition) → List String
  | [] => []
  | (k, v) :: rest =>
      zodFieldLine requiredFields indent k v :: zodFields requiredFields indent rest
termination_by l => (propsSize (some l), 2)
decreasing_by
  · apply Prod.Lex.left
    have := tdSize_pos v
    simp [propsSize] <;> omega
  · apply Prod.Lex.left
    have := tdSize_pos v
    simp [propsSize] <;> omega

def zodFieldLine (requiredFields : List String) (indent : Nat) (key : String)
    (value : TypeDefinition) : String :=
  let indentation := strRepeat "  " indent
  let fieldSchema := convertTypeToZod value (indent + 2)
  let isOptional := !(requiredFields.contains key)
  if fieldSchema.contains '\n' then
    let lines := fieldSchema.splitOn "\n"
    let firstLine := lines.headD ""
    let restLines := String.intercalate "\n"
      ((lines.drop 1).map (fun l => indentation ++ "    " ++ l))
    let baseSchema := firstLine ++ "\n" ++ restLines
    if isOptional then
      indentation ++ "    " ++ key ++ ": " ++ baseSchema ++ ".optional(),"
    else
      indentation ++ "    " ++ key ++ ": " ++ baseSchema ++ ","
  else
    if isOptional then
      indentation ++ "    " ++ key ++ ": " ++ fieldSchema ++ ".optional(),"
    else
      indentation ++ "    " ++ key ++ ": " ++ fieldSchema ++ ","
termination_by (tdSize value, 1)
decreasing_by
  · apply Prod.Lex.right
    omega
end

def generateZod (typeName : String) (typeDef : TypeDefinition) : String :=
  "export const " ++ typeName ++ "Schema = " ++ convertTypeToZod typeDef 0
    ++ ";\n\nexport type " ++ typeName ++ " = z.infer<typeof " ++ typeName ++ "Schema>;"

/-
`getTypeDisplayName`, `getTypeDescription`, `generateExample`,
`generateApiDoc` (src/generators/api-doc.ts).  The `default` branches are
unreachable (`TypeKind` is exhaustive).
-/
def getTypeDisplayName (typeDef : TypeDefinition) : String :=
  match typeDef with
  | .mk .string _ _ _ _ => "string"
  | .mk .number _ _ _ _ => "number"
  | .mk .boolean _ _ _ _ => "boolean"
  | .mk .null _ _ _ _ => "null"
  | .mk .array _ itms _ _ =>
      match itms with
      | some i => getTypeDisplayName i ++ "[]"
      | none => "any[]"
  | .mk .object props _ _ _ =>
      match props with
      | none => "object"
      | some l =>
          match l with
          | [] => "object"
          | _ :: _ => "\x7b " ++ String.intercalate ", " (l.map Prod.fst) ++ " \x7d"

def getTypeDescription (typeDef : TypeDefinition) : String :=
  match typeDef.description with
  | some d => d
  | none =>
    match typeDef.kind with
    | .string => "A string value"
    | .number => "A numeric value"
    | .boolean => "A boolean value (true/false)"
    | .null => "A null value"
    | .array => "An array of items"
    | .object => "An object with properties"

mutual
def generateExample (typeDef : TypeDefinition) (indent : Nat) : String :=
  let indentation := strRepeat "  " indent
  match typeDef with
  | .mk .string _ _ _ _ => "\"example\""
  | .mk .number _ _ _ _ => "123"
  | .mk .boolean _ _ _ _ => "true"
  | .mk .null _ _ _ _ => "null"
  | .mk .array _ itms _ _ =>
      match itms with
      | some i =>
          "[\n" ++ indentation ++ "  " ++ generateExample i 0 ++ "\n" ++ indentation ++ "]"
      | none => "[]"
  | .mk .object props _ _ _ =>
      match props with
      | none => "\x7b\x7d"
      | some l =>
          match l with
          | [] => "\x7b\x7d"
          | _ :: _ =>
              "\x7b\n" ++ String.intercalate ",\n" (exampleFields l indent) ++ "\n"
                ++ indentation ++ "\x7d"

def exampleFields : List (String × TypeDefinition) → Nat → List String
  | [], _ => []
  | (k, v) :: rest, indent =>
      (strRepeat "  " indent ++ "  \"" ++ k ++ "\": " ++ generateExample v (indent + 1))
        :: exampleFields rest indent
end

/- One row of the documentation table (the loop body of `generateApiDoc`). -/
def apiDocRow (requiredFields : List String) (key : String) (value : TypeDefinition) : String :=
  "| " ++ key ++ " | `" ++ getTypeDisplayName value ++ "` | "
    ++ (if requiredFields.contains key then "Yes" else "No") ++ " | "
    ++ getTypeDescription value ++ " |"

def apiDocRows (requiredFields : List String) (l : List (String × TypeDefinition)) : List String :=
  l.map (fun e => apiDocRow requiredFields e.1 e.2)

def generateApiDoc (typeName : String) (typeDef : TypeDefinition) : String :=
  let rows :=
    match typeDef with
    | .mk .object (some l) _ req _ =>
        apiDocRows (match req with | none => [] | some r => r) l
    | _ =>
        ["| *value* | `" ++ getTypeDisplayName typeDef ++ "` | Yes | "
          ++ getTypeDescription typeDef ++ " |"]
  String.intercalate "\n"
    (["# " ++ typeName, "", "## Schema", "",
      "| Field | Type | Required | Description |",
      "|-------|------|----------|-------------|"]
     ++ rows
     ++ ["", "## Example", "", "```json", generateExample typeDef 0, "```"])

/-
`generateAll` (src/index.ts, lines 33-45): takes ONE parsed JSON value,
infers once with `inferType`, and renders all four formats from that one
TypeDefinition.
-/
structure GenerateAllResult where
  jsonSchema : String
  typescript : String
  zod : String
  apiDoc : String

def zodImportHeader : String :=
  "import \x7b z \x7d from " ++ singleQuote ++ "zod" ++ singleQuote ++ ";\n\n"

def generateAll (json : Json) (typeName : String := "Schema") : GenerateAllResult :=
  let typeDef := inferType json
  { jsonSchema := generateJsonSchema typeName typeDef
    typescript := generateTypeScript typeName typeDef
    zod := zodImportHeader ++ generateZod typeName typeDef
    apiDoc := generateApiDoc typeName typeDef }

/-
Well-formedness of a Json value: JavaScript objects cannot carry
duplicate keys, so parsed JSON satisfies this by construction.
-/
mutual
def Json.wf : Json → Bool
  | .null => true
  | .str _ => true
  | .num _ => true
  | .bool _ => true
  | .arr l => wfItems l
  | .obj fields => decide ((fields.map Prod.fst).Nodup) && wfFields fields

def wfItems : List Json → Bool
  | [] => true
  | x :: xs => Json.wf x && wfItems xs

def wfFields : List (String × Json) → Bool
  | [] => true
  | (_, v) :: rest => Json.wf v && wfFields rest
end

/- The `required` list of a node, defaulting to empty (`t.required || []`). -/
def requiredOf (t : TypeDefinition) : List String :=
  match t.required with
  | none => []
  | some r => r

/-
The §3 data-model invariant, checked recursively at every nested node:
an object node's `required` names are all among its `properties` keys.
-/
mutual
def reqInv : TypeDefinition → Bool
  | .mk k props itms req d =>
      (!(k == TypeKind.object)
        || (requiredOf (.mk k props itms req d)).all
             (fun p => decide (p ∈ propKeys (.mk k props itms req d))))
      && reqInvProps props && reqInvItems itms

def reqInvProps : Option (List (String × TypeDefinition)) → Bool
  | none => true
  | some [] => true
  | some ((_, v) :: rest) => reqInv v && reqInvProps (some rest)

def reqInvItems : Option TypeDefinition → Bool
  | none => true
  | some t => reqInv t
end

/-
The exact shape of single-value inference output: primitives carry no
auxiliary fields, arrays carry exactly `items`, objects carry exactly
`properties` (with duplicate-free keys) and `required` equal to the key
list.  Every `inferType` result over a well-formed Json value satisfies
this.
-/
mutual
def wfT : TypeDefinition → Bool
  | .mk .string none none none none => true
  | .mk .number none none none none => true
  | .mk .boolean none none none none => true
  | .mk .null none none none none => true
  | .mk .array none (some i) none none => wfT i
  | .mk .object (some l) none (some r) none =>
      decide (r = l.map Prod.fst) && decide ((l.map Prod.fst).Nodup) && wfTProps l
  | _ => false

def wfTProps : List (String × TypeDefinition) → Bool
  | [] => true
  | (_, v) :: rest => wfT v && wfTProps rest
end

/- Field access on an emitted schema object. -/
def jsonLookup (j : Json) (k : String) : Option Json :=
  match j with
  | .obj fs => fs.lookup k
  | _ => none

/- The `required` list of an emitted schema object (absent key = empty). -/
def schemaRequired (j : Json) : List String :=
  match jsonLookup j "required" with
  | some (.arr l) => l.filterMap (fun x => match x with | .str s => some s | _ => none)
  | _ => []

/-
The part of a rendered zod field line shared by the required and the
optional rendering; `zodFieldLine` is this stem followed by `","` or by
`".optional(),"`.
-/
def zodFieldStem (indent : Nat) (key : String) (value : TypeDefinition) : String :=
  let indentation := strRepeat "  " indent
  let fieldSchema := convertTypeToZod value (indent + 2)
  if fieldSchema.contains '\n' then
    let lines := fieldSchema.splitOn "\n"
    let firstLine := lines.headD ""
    let restLines := String.intercalate "\n"
      ((lines.drop 1).map (fun l => indentation ++ "    " ++ l))
    indentation ++ "    " ++ key ++ ": " ++ (firstLine ++ "\n" ++ restLines)
  else
    indentation ++ "    " ++ key ++ ": " ++ fieldSchema

/- ------------------------------------------------------------------ -/
/- Shared lemmas.                                                      -/
/- ------------------------------------------------------------------ -/

theorem lookup_isSome_iff {β : Type} (l : List (String × β)) (k : String) :
    (l.lookup k).isSome ↔ k ∈ l.map Prod.fst := by
  induction l with
  | nil => simp [List.lookup]
  | cons hd tl ih =>
    obtain ⟨k2, v2⟩ := hd
    rw [List.lookup]
    by_cases hk : k == k2
    · have : k = k2 := by simpa using hk
      subst this
      simp [hk]
    · have hne : k ≠ k2 := by simpa using hk
      simp [hk, hne, ih]

theorem lookup_eq_none_iff {β : Type} (l : List (String × β)) (k : String) :
    l.lookup k = none ↔ k ∉ l.map Prod.fst := by
  rw [← lookup_isSome_iff]
  cases h : l.lookup k <;> simp [h]

theorem hasProp_iff (t : TypeDefinition) (p : String) :
    hasProp t p = true ↔ p ∈ propKeys t := by
  obtain ⟨k, props, itms, req, d⟩ := t
  cases props with
  | none => simp [hasProp, getProp, propKeys, TypeDefinition.properties]
  | some l =>
    simp only [hasProp, getProp, propKeys, TypeDefinition.properties]
    exact lookup_isSome_iff l p

theorem mem_dedupAux (l : List String) : ∀ (seen : List String) (p : String),
    p ∈ dedupAux l seen ↔ p ∈ l ∧ p ∉ seen := by
  induction l with
  | nil => intro seen p; simp [dedupAux]
  | cons x xs ih =>
    intro seen p
    rw [dedupAux]
    by_cases hx : x ∈ seen
    · rw [if_pos hx, ih]
      constructor
      · rintro ⟨h1, h2⟩
        exact ⟨List.mem_cons_of_mem _ h1, h2⟩
      · rintro ⟨h1, h2⟩
        rw [List.mem_cons] at h1
        rcases h1 with h1 | h1
        · subst h1; exact absurd hx h2
        · exact ⟨h1, h2⟩
    · rw [if_neg hx]
      rw [List.mem_cons, ih]
      constructor
      · rintro (h | ⟨h1, h2⟩)
        · subst h; exact ⟨List.mem_cons_self _ _, hx⟩
        · refine ⟨List.mem_cons_of_mem _ h1, fun hc => h2 (List.mem_cons_of_mem _ hc)⟩
      · rintro ⟨h1, h2⟩
        rw [List.mem_cons] at h1
        rcases h1 with h1 | h1
        · exact Or.inl h1
        · by_cases hpx : p = x
          · exact Or.inl hpx
          · refine Or.inr ⟨h1, fun hc => ?_⟩
            rw [List.mem_cons] at hc
            rcases hc with hc | hc
            · exact hpx hc
            · exact h2 hc

theorem mem_dedupFirst (l : List String) (p : String) :
    p ∈ dedupFirst l ↔ p ∈ l := by
  rw [dedupFirst, mem_dedupAux]
  simp

theorem nodup_dedupAux (l : List String) : ∀ (seen : List String), (dedupAux l seen).Nodup := by
  induction l with
  | nil => intro seen; simp [dedupAux]
  | cons x xs ih =>
    intro seen
    rw [dedupAux]
    by_cases hx : x ∈ seen
    · rw [if_pos hx]; exact ih seen
    · rw [if_neg hx]
      refine List.Nodup.cons ?_ (ih (x :: seen))
      intro hc
      rw [mem_dedupAux] at hc
      exact hc.2 (List.mem_cons_self _ _)

theorem nodup_dedupFirst (l : List String) : (dedupFirst l).Nodup :=
  nodup_dedupAux l []

theorem dedupAux_all_seen (l : List String) : ∀ (seen : List String),
    (∀ x ∈ l, x ∈ seen) → dedupAux l seen = [] := by
  induction l with
  | nil => intro seen _; rw [dedupAux]
  | cons x xs ih =>
    intro seen h
    rw [dedupAux, if_pos (h x (List.mem_cons_self _ _))]
    exact ih seen (fun y hy => h y (List.mem_cons_of_mem _ hy))

theorem dedupAux_append_covered : ∀ (l1 l2 seen : List String), l1.Nodup →
    (∀ x ∈ l1, x ∉ seen) → (∀ x ∈ l2, x ∈ l1 ∨ x ∈ seen) →
    dedupAux (l1 ++ l2) seen = l1 := by
  intro l1
  induction l1 with
  | nil =>
    intro l2 seen _ _ h2
    simpa using dedupAux_all_seen l2 seen (fun x hx => by
      rcases h2 x hx with h | h
      · simp at h
      · exact h)
  | cons x xs ih =>
    intro l2 seen hnd hns h2
    rw [List.cons_append, dedupAux, if_neg (hns x (List.mem_cons_self _ _))]
    congr 1
    apply ih
    · exact hnd.of_cons
    · intro y hy
      rw [List.mem_cons, not_or]
      constructor
      · intro hc; subst hc
        exact (List.nodup_cons.mp hnd).1 hy
      · exact hns y (List.mem_cons_of_mem _ hy)
    · intro y hy
      rcases h2 y hy with h | h
      · rw [List.mem_cons] at h
        rcases h with h | h
        · subst h; exact Or.inr (List.mem_cons_self _ _)
        · exact Or.inl h
      · exact Or.inr (List.mem_cons_of_mem _ h)

theorem dedupFirst_append_self (l : List String) (h : l.Nodup) :
    dedupFirst (l ++ l) = l := by
  rw [dedupFirst]
  exact dedupAux_append_covered l l [] h (by simp) (fun x hx => Or.inl hx)

theorem length_filter_eq_iff {α : Type} (l : List α) (q : α → Bool) :
    (l.filter q).length = l.length ↔ ∀ a ∈ l, q a = true := by
  constructor
  · intro h a ha
    by_contra hnot
    have : (l.filter q).length < l.length :=
      List.length_filter_lt_length_iff_exists.mpr ⟨a, ha, by simpa using hnot⟩
    omega
  · intro h
    rw [List.filter_eq_self.mpr h]

theorem filterMap_filter_isSome {α β : Type} (l : List α) (f : α → Option β) :
    (l.filter (fun a => (f a).isSome)).filterMap f = l.filterMap f := by
  induction l with
  | nil => simp
  | cons hd tl ih =>
    cases h : f hd with
    | none => simp [List.filter_cons, List.filterMap_cons, h, ih]
    | some b => simp [List.filter_cons, List.filterMap_cons, h, ih]

theorem mergePropEntry_snd (t0 : TypeDefinition) (rest : List TypeDefinition) (p : String) :
    (mergePropEntry t0 rest p).2 =
      if ((t0 :: rest).filter (fun t => hasProp t p)).length = (t0 :: rest).length
      then [p] else [] := by
  by_cases hc : ((t0 :: rest).filter (fun t => hasProp t p)).length = (t0 :: rest).length
  · simp [mergePropEntry, hc]
  · simp [mergePropEntry, hc]
    split_ifs <;> rfl

theorem mergePropEntry_fst_key (t0 : TypeDefinition) (rest : List TypeDefinition) (p : String) :
    ∀ pr, (mergePropEntry t0 rest p).1 = some pr → pr.1 = p := by
  intro pr h
  simp only [mergePropEntry] at h
  split_ifs at h with hc hp <;>
    first
    | (simp only [Option.some.injEq] at h; simp [← h])
    | simp at h

theorem mergePropEntry_fst_required (t0 : TypeDefinition) (rest : List TypeDefinition) (p : String)
    (hc : ((t0 :: rest).filter (fun t => hasProp t p)).length = (t0 :: rest).length) :
    (mergePropEntry t0 rest p).1
      = some (p, mergeTypes ((t0 :: rest).filterMap (fun t => getProp t p))) := by
  simp [mergePropEntry, hc]

theorem mergePropEntry_fst_optional (t0 : TypeDefinition) (rest : List TypeDefinition) (p : String)
    (hc : ¬ ((t0 :: rest).filter (fun t => hasProp t p)).length = (t0 :: rest).length)
    (hx : ∃ t ∈ t0 :: rest, hasProp t p = true) :
    (mergePropEntry t0 rest p).1
      = some (p, mergeTypes (((t0 :: rest).filter (fun t => hasProp t p)).filterMap
          (fun t => getProp t p))) := by
  have hlen : 0 < (((t0 :: rest).filter (fun t => hasProp t p)).filterMap
      (fun t => getProp t p)).length := by
    obtain ⟨t, ht, hs⟩ := hx
    rw [List.length_pos]
    intro hnil
    rw [List.filterMap_eq_nil_iff] at hnil
    have htf : t ∈ (t0 :: rest).filter (fun t => hasProp t p) :=
      List.mem_filter.mpr ⟨ht, hs⟩
    have := hnil t htf
    rw [hasProp] at hs
    rw [this] at hs
    simp at hs
  simp only [mergePropEntry]
  rw [dif_neg hc, dif_pos hlen]

theorem mergeOTD_cons_eq (t0 : TypeDefinition) (rest : List TypeDefinition) :
    mergeObjectTypeDefinitions (t0 :: rest)
      = .mk .object
          (some (((dedupFirst ((t0 :: rest).flatMap propKeys)).map
            (fun p => mergePropEntry t0 rest p)).filterMap Prod.fst))
          none
          (some ((((dedupFirst ((t0 :: rest).flatMap propKeys)).map
            (fun p => mergePropEntry t0 rest p)).map Prod.snd).flatten))
          none := by
  rw [mergeObjectTypeDefinitions]

theorem mergeOTD_required_iff (t0 : TypeDefinition) (rest : List TypeDefinition) (p : String) :
    p ∈ requiredOf (mergeObjectTypeDefinitions (t0 :: rest))
      ↔ ∀ t ∈ t0 :: rest, hasProp t p = true := by
  rw [mergeOTD_cons_eq]
  simp only [requiredOf, TypeDefinition.required, List.map_map, List.mem_flatten, List.mem_map]
  constructor
  · rintro ⟨l, ⟨q, hq, hl⟩, hpl⟩
    subst hl
    simp only [Function.comp_apply, mergePropEntry_snd] at hpl
    by_cases hc : ((t0 :: rest).filter (fun t => hasProp t q)).length = (t0 :: rest).length
    · rw [if_pos hc] at hpl
      simp at hpl
      subst hpl
      exact (length_filter_eq_iff _ _).mp hc
    · rw [if_neg hc] at hpl
      simp at hpl
  · intro hall
    refine ⟨[p], ⟨p, ?_, ?_⟩, by simp⟩
    · rw [mem_dedupFirst, List.mem_flatMap]
      refine ⟨t0, by simp, ?_⟩
      rw [← hasProp_iff]
      exact hall t0 (by simp)
    · simp only [Function.comp_apply, mergePropEntry_snd]
      rw [if_pos ((length_filter_eq_iff _ _).mpr hall)]

theorem keys_entries_subset (g : String → Option (String × TypeDefinition) × List String)
    (hkey : ∀ n pr, (g n).1 = some pr → pr.1 = n) (ns : List String) :
    ∀ k ∈ ((ns.map g).filterMap Prod.fst).map Prod.fst, k ∈ ns := by
  intro k hk
  rw [List.mem_map] at hk
  obtain ⟨pr, hpr, hk⟩ := hk
  rw [List.mem_filterMap] at hpr
  obtain ⟨e, he, hfst⟩ := hpr
  rw [List.mem_map] at he
  obtain ⟨n, hn, he⟩ := he
  subst he
  have := hkey n pr hfst
  rw [← hk, this]
  exact hn

theorem lookup_mapped_entries (g : String → Option (String × TypeDefinition) × List String)
    (hkey : ∀ n pr, (g n).1 = some pr → pr.1 = n) :
    ∀ (names : List String), names.Nodup → ∀ q ∈ names,
    ((names.map g).filterMap Prod.fst).lookup q = Option.map Prod.snd (g q).1 := by
  intro names
  induction names with
  | nil => simp
  | cons n ns ih =>
    intro hnd q hq
    rw [List.map_cons, List.filterMap_cons]
    rw [List.mem_cons] at hq
    cases hgn : (g n).1 with
    | none =>
      rcases hq with hq | hq
      · subst hq
        rw [hgn]
        simp only [Option.map_none']
        rw [lookup_eq_none_iff]
        intro hc
        exact (List.nodup_cons.mp hnd).1 (keys_entries_subset g hkey ns q hc)
      · exact ih (List.nodup_cons.mp hnd).2 q hq
    | some pr =>
      have hpr : pr.1 = n := hkey n pr hgn
      obtain ⟨k1, v1⟩ := pr
      simp only at hpr
      rw [List.lookup]
      by_cases hqn : q = k1
      · have hbeq : (q == k1) = true := by simp [hqn]
        simp only [hbeq]
        rw [hqn.trans hpr, hgn]
        rfl
      · have hbeq : (q == k1) = false := by simp [hqn]
        simp only [hbeq]
        rcases hq with hq | hq
        · exact absurd (hq.trans hpr.symm) hqn
        · exact ih (List.nodup_cons.mp hnd).2 q hq

theorem mergeOTD_getProp (t0 : TypeDefinition) (rest : List TypeDefinition) (p : String)
    (hx : ∃ t ∈ t0 :: rest, hasProp t p = true) :
    getProp (mergeObjectTypeDefinitions (t0 :: rest)) p
      = Option.map Prod.snd (mergePropEntry t0 rest p).1 := by
  rw [mergeOTD_cons_eq]
  simp only [getProp, TypeDefinition.properties]
  apply lookup_mapped_entries (fun q => mergePropEntry t0 rest q)
    (fun n => mergePropEntry_fst_key t0 rest n)
    (dedupFirst ((t0 :: rest).flatMap propKeys))
    (nodup_dedupFirst _) p
  rw [mem_dedupFirst, List.mem_flatMap]
  obtain ⟨t, ht, hs⟩ := hx
  refine ⟨t, ht, ?_⟩
  rw [← hasProp_iff]
  exact hs

theorem find?_prefix_none {α : Type} (p : α → Bool) :
    ∀ (l1 : List α) (t : α) (l2 : List α), (∀ u ∈ l1, p u = false) → p t = true →
    (l1 ++ t :: l2).find? p = some t := by
  intro l1
  induction l1 with
  | nil =>
    intro t l2 _ hpt
    simp [List.find?_cons, hpt]
  | cons x xs ih =>
    intro t l2 hfail hpt
    rw [List.cons_append, List.find?_cons]
    rw [hfail x (List.mem_cons_self _ _)]
    exact ih t l2 (fun u hu => hfail u (List.mem_cons_of_mem _ hu)) hpt

/-- Claim C5: single-value inference of an empty array yields
`{kind: array, items: {kind: string}}`; of a non-empty array it infers
`items` from the first element only, so the result is independent of all
elements past index 0. -/
theorem c5_inferType_array_first_element_only :
    inferType (.arr []) = .mk .array none (some (.mk .string none none none none)) none none
    ∧ (∀ x rest, inferType (.arr (x :: rest)) = .mk .array none (some (inferType x)) none none)
    ∧ (∀ x rest rest2, inferType (.arr (x :: rest)) = inferType (.arr (x :: rest2))) :=
  ⟨rfl, fun _ _ => rfl, fun _ _ _ => rfl⟩

/-- Claim C10: the Schema-notation renderer copies an object node's
`required` list into the output verbatim (whenever it is non-empty),
without intersecting it with the `properties` keys; on a node with empty
`properties` but non-empty `required`, the `properties` key is omitted
while `required` is still emitted — shown at `required = ["ghost"]`. -/
theorem c10_jsonSchema_required_copied_verbatim :
    (∀ props itms req d,
      jsonLookup (convertTypeToJsonSchema (.mk .object props itms (some req) d)) "required"
        = if req.length = 0 then none else some (.arr (req.map Json.str)))
    ∧ jsonLookup (convertTypeToJsonSchema (.mk .object (some []) none (some ["ghost"]) none))
        "properties" = none
    ∧ jsonLookup (convertTypeToJsonSchema (.mk .object (some []) none (some ["ghost"]) none))
        "required" = some (.arr [.str "ghost"]) := by
  refine ⟨?_, by rfl, by rfl⟩
  intro props itms req d
  rcases props with _ | l
  · rcases req with _ | ⟨r0, rs⟩
    · simp [convertTypeToJsonSchema, jsonLookup, List.lookup]
    · simp [convertTypeToJsonSchema, jsonLookup, List.lookup]
  · rcases req with _ | ⟨r0, rs⟩
    · by_cases hp : (convertSchemaProps l).length > 0 <;>
        simp [convertTypeToJsonSchema, jsonLookup, List.lookup, hp]
    · by_cases hp : (convertSchemaProps l).length > 0 <;>
        simp [convertTypeToJsonSchema, jsonLookup, List.lookup, hp]

/-- Claim C1, amended: `generateAll` takes a single example JSON value
(not a list of examples); it runs single-value inference exactly once on
that value and passes the identical resulting Type Node to all four
renderers, so every entry of the returned mapping describes that same
type.  It never dispatches to `inferTypeFromExamples` (the CLI layer does
that before calling the renderers individually). -/
theorem c1_generateAll_single_inference (json : Json) (typeName : String) :
    ∃ t, t = inferType json
      ∧ (generateAll json typeName).jsonSchema = generateJsonSchema typeName t
      ∧ (generateAll json typeName).typescript = generateTypeScript typeName t
      ∧ (generateAll json typeName).zod = zodImportHeader ++ generateZod typeName t
      ∧ (generateAll json typeName).apiDoc = generateApiDoc typeName t :=
  ⟨inferType json, rfl, rfl, rfl, rfl, rfl⟩

set_option maxRecDepth 8000 in
/-- Claim C1, counterexample: calling `generateAll` on a list of two
examples does not delegate to the multi-example merge — the list is
treated as one JSON array value, so the rendered schema differs from the
rendering of `inferTypeFromExamples` on those two examples. -/
theorem c1_generateAll_cex :
    (generateAll (.arr [.num 1, .str "x"]) "Schema").jsonSchema
      ≠ generateJsonSchema "Schema" (inferTypeFromExamples [.num 1, .str "x"]) := by
  decide

/-- Claim C3: merging two or more candidates with differing kinds falls
back to exactly `{kind: string}` (never a union); when all candidates
share the same primitive (non-array, non-object) kind the first candidate
is returned; in particular merging the inferences of `[{a:1}, {a:"x"}]`
gives property `a` the kind `string`. -/
theorem c3_mergeTypes_conflict_fallback :
    (∀ t0 t1 rest, ¬ (∀ t ∈ t0 :: t1 :: rest, t.kind = t0.kind) →
        mergeTypes (t0 :: t1 :: rest) = .mk .string none none none none)
    ∧ (∀ t0 t1 rest, (∀ t ∈ t0 :: t1 :: rest, t.kind = t0.kind) →
        t0.kind ≠ .array → t0.kind ≠ .object →
        mergeTypes (t0 :: t1 :: rest) = t0)
    ∧ (getProp (inferTypeFromExamples [.obj [("a", .num 1)], .obj [("a", .str "x")]]) "a").map
        TypeDefinition.kind = some .string := by
  refine ⟨?_, ?_, ?_⟩
  · intro t0 t1 rest h
    have hfalse : ((t0 :: t1 :: rest).all (fun t => t.kind = t0.kind)) = false := by
      rw [List.all_eq_false]
      by_contra hc
      push_neg at hc
      apply h
      intro t ht
      have := hc t ht
      simpa using this
    rw [mergeTypes]
    simp [hfalse]
  · intro t0 t1 rest h hkA hkO
    have htrue : ((t0 :: t1 :: rest).all (fun t => t.kind = t0.kind)) = true := by
      rw [List.all_eq_true]
      intro t ht
      simpa using h t ht
    rw [mergeTypes]
    simp only [htrue, if_true]
    rw [dif_neg (fun hc => hkA hc.1)]
    rw [if_neg hkO]
  · simp [inferTypeFromExamples, inferType, inferProps, TypeDefinition.kind]
    simp [mergeObjectTypeDefinitions, mergePropEntry, dedupFirst, dedupAux, propKeys,
      TypeDefinition.properties, hasProp, getProp, List.lookup]
    simp [mergeTypes, TypeDefinition.kind]

/-- Witness for C3 at concrete inputs: a string/number conflict merges to
`{kind: string}`, and two boolean candidates merge to the first. -/
theorem c3_mergeTypes_conflict_fallback_witness :
    mergeTypes [.mk .string none none none none, .mk .number none none none none]
        = .mk .string none none none none
    ∧ mergeTypes [.mk .boolean none none none none, .mk .boolean none none none none]
        = .mk .boolean none none none none :=
  ⟨c3_mergeTypes_conflict_fallback.1 _ _ [] (by decide),
   c3_mergeTypes_conflict_fallback.2.1 _ _ [] (by decide) (by decide) (by decide)⟩

/-- Claim C4, counterexample: with candidates all of array kind of which
only the SECOND has `items`, the merge returns the first candidate
unchanged (no `items`), not `{kind: array, items: merged}` as the claim
states for "at least one candidate has items". -/
theorem c4_mergeTypes_array_items_cex :
    ¬ (mergeTypes [.mk .array none none none none,
          .mk .array none (some (.mk .string none none none none)) none none]
        = .mk .array none
            (some (mergeTypes (([.mk .array none none none none,
                .mk .array none (some (.mk .string none none none none)) none none]
                : List TypeDefinition).filterMap
              (fun t => t.items))))
            none none) := by
  have h1 : mergeTypes [.mk .array none none none none,
      .mk .array none (some (.mk .string none none none none)) none none]
      = .mk .array none none none none := by
    simp [mergeTypes, TypeDefinition.kind, TypeDefinition.items]
  rw [h1]
  intro h
  simp at h

/-- Claim C4, amended: for two or more candidates all of array kind in
which the FIRST candidate has an `items` field, the merge returns
`{kind: array, items: m}` where `m` is the recursive merge of all `items`
values present among the candidates. -/
theorem c4_mergeTypes_array_items_merge (t0 t1 : TypeDefinition) (rest : List TypeDefinition)
    (hall : ∀ t ∈ t0 :: t1 :: rest, t.kind = .array)
    (h0 : t0.items.isSome = true) :
    mergeTypes (t0 :: t1 :: rest)
      = .mk .array none
          (some (mergeTypes ((t0 :: t1 :: rest).filterMap (fun t => t.items)))) none none := by
  have h00 : t0.kind = .array := hall t0 (by simp)
  have htrue : ((t0 :: t1 :: rest).all (fun t => t.kind = t0.kind)) = true := by
    rw [List.all_eq_true]
    intro t ht
    have := hall t ht
    simp [this, h00]
  rw [mergeTypes]
  simp only [htrue, if_true]
  rw [dif_pos ⟨h00, h0⟩]
  rw [filterMap_filter_isSome]

/-- Witness for C4 at a concrete input: two array candidates whose first
has items of kind string. -/
theorem c4_mergeTypes_array_items_merge_witness :
    mergeTypes [.mk .array none (some (.mk .string none none none none)) none none,
        .mk .array none (some (.mk .number none none none none)) none none]
      = .mk .array none
          (some (mergeTypes (([.mk .array none (some (.mk .string none none none none)) none none,
              .mk .array none (some (.mk .number none none none none)) none none]
              : List TypeDefinition).filterMap
            (fun t => t.items)))) none none :=
  c4_mergeTypes_array_items_merge _ _ [] (by decide) (by decide)

/-- Claim C6: `inferTypeFromExamples` returns `{kind: null}` for an empty
list; for a one-element list it is exactly single-value inference; and
for two or more examples whose inferred nodes are not all object-kind it
returns the first inferred node (in input order) whose kind is not null,
or `{kind: null}` if every example inferred to kind null. -/
theorem c6_inferTypeFromExamples_dispatch :
    inferTypeFromExamples [] = .mk .null none none none none
    ∧ (∀ e, inferTypeFromExamples [e] = inferType e)
    ∧ (∀ (e0 e1 : Json) (rest : List Json),
        ¬ (∀ t ∈ (e0 :: e1 :: rest).map inferType, t.kind = .object) →
        ((∀ t ∈ (e0 :: e1 :: rest).map inferType, t.kind = .null) →
            inferTypeFromExamples (e0 :: e1 :: rest) = .mk .null none none none none)
        ∧ (∀ l1 t l2, (e0 :: e1 :: rest).map inferType = l1 ++ t :: l2 →
            (∀ u ∈ l1, u.kind = .null) → t.kind ≠ .null →
            inferTypeFromExamples (e0 :: e1 :: rest) = t)) := by
  refine ⟨rfl, fun e => rfl, ?_⟩
  intro e0 e1 rest hno
  have hfalse : (((e0 :: e1 :: rest).map inferType).all (fun t => t.kind = .object)) = false := by
    rw [List.all_eq_false]
    by_contra hc
    push_neg at hc
    apply hno
    intro t ht
    simpa using hc t ht
  constructor
  · intro hnull
    rw [inferTypeFromExamples]
    simp only [hfalse, Bool.false_eq_true, if_false]
    have : (((e0 :: e1 :: rest).map inferType).find? (fun t => !(t.kind = .null))) = none := by
      rw [List.find?_eq_none]
      intro t ht
      simp [hnull t ht]
    rw [this]
    rfl
  · intro l1 t l2 hsplit hl1 ht
    rw [inferTypeFromExamples]
    simp only [hfalse, Bool.false_eq_true, if_false]
    rw [hsplit]
    rw [find?_prefix_none _ l1 t l2 (fun u hu => by simp [hl1 u hu]) (by simpa using ht)]
    rfl

/-- Witness for C6 at a concrete input: for examples [1, "x"] (not all
objects, first non-null inferred node is the number node) the merge
returns the number node. -/
theorem c6_inferTypeFromExamples_dispatch_witness :
    inferTypeFromExamples [.num 1, .str "x"] = .mk .number none none none none :=
  (c6_inferTypeFromExamples_dispatch.2.2 (.num 1) (.str "x") [] (by decide)).2
    [] (.mk .number none none none none) [.mk .string none none none none]
    (by rfl) (by simp) (by decide)

/-- Claim C2: in the object-merge algorithm a property is listed in the
result's `required` exactly when it occurs in the properties of all input
nodes; a property occurring in some but not all nodes is present in the
merged properties but absent from `required`, its type merged only over
the nodes that have it; in particular merging the inferences of
`{a:1,b:2}` and `{a:1}` yields `required = [a]` with `b` in properties
but not in `required`. -/
theorem c2_mergeObject_required_partition :
    (∀ (t0 : TypeDefinition) (rest : List TypeDefinition) (p : String),
        p ∈ requiredOf (mergeObjectTypeDefinitions (t0 :: rest))
          ↔ ∀ t ∈ t0 :: rest, hasProp t p = true)
    ∧ (∀ (t0 : TypeDefinition) (rest : List TypeDefinition) (p : String),
        (∃ t ∈ t0 :: rest, hasProp t p = true) → (∃ t ∈ t0 :: rest, hasProp t p = false) →
        p ∉ requiredOf (mergeObjectTypeDefinitions (t0 :: rest))
        ∧ getProp (mergeObjectTypeDefinitions (t0 :: rest)) p
            = some (mergeTypes (((t0 :: rest).filter (fun t => hasProp t p)).filterMap
                (fun t => getProp t p))))
    ∧ (requiredOf (inferTypeFromExamples
          [.obj [("a", .num 1), ("b", .num 2)], .obj [("a", .num 1)]]) = ["a"]
        ∧ hasProp (inferTypeFromExamples
            [.obj [("a", .num 1), ("b", .num 2)], .obj [("a", .num 1)]]) "b" = true
        ∧ "b" ∉ requiredOf (inferTypeFromExamples
            [.obj [("a", .num 1), ("b", .num 2)], .obj [("a", .num 1)]])) := by
  refine ⟨mergeOTD_required_iff, ?_, ?_, ?_, ?_⟩
  · intro t0 rest p hx hnx
    have hc : ¬ ((t0 :: rest).filter (fun t => hasProp t p)).length = (t0 :: rest).length := by
      intro hc
      obtain ⟨t, ht, hf⟩ := hnx
      have := (length_filter_eq_iff _ _).mp hc t ht
      rw [this] at hf
      simp at hf
    constructor
    · rw [mergeOTD_required_iff]
      intro hall
      obtain ⟨t, ht, hf⟩ := hnx
      rw [hall t ht] at hf
      cases hf
    · rw [mergeOTD_getProp t0 rest p hx]
      rw [mergePropEntry_fst_optional t0 rest p hc hx]
      rfl
  · simp [inferTypeFromExamples, inferType, inferProps, TypeDefinition.kind]
    simp [mergeObjectTypeDefinitions, mergePropEntry, dedupFirst, dedupAux, propKeys,
      TypeDefinition.properties, hasProp, getProp, List.lookup, requiredOf,
      TypeDefinition.required]
  · simp [inferTypeFromExamples, inferType, inferProps, TypeDefinition.kind]
    simp [mergeObjectTypeDefinitions, mergePropEntry, dedupFirst, dedupAux, propKeys,
      TypeDefinition.properties, hasProp, getProp, List.lookup]
  · simp [inferTypeFromExamples, inferType, inferProps, TypeDefinition.kind]
    simp [mergeObjectTypeDefinitions, mergePropEntry, dedupFirst, dedupAux, propKeys,
      TypeDefinition.properties, hasProp, getProp, List.lookup, requiredOf,
      TypeDefinition.required]

/-- Witness for C2 at concrete inputs: merging the (already inferred)
nodes of `{a:1,b:2}` and `{a:1}` leaves `b` optional and merges its type
only over the one node that has it. -/
theorem c2_mergeObject_required_partition_witness :
    "b" ∉ requiredOf (mergeObjectTypeDefinitions
        [.mk .object (some [("a", .mk .number none none none none),
            ("b", .mk .number none none none none)]) none (some ["a", "b"]) none,
          .mk .object (some [("a", .mk .number none none none none)]) none (some ["a"]) none])
    ∧ getProp (mergeObjectTypeDefinitions
        [.mk .object (some [("a", .mk .number none none none none),
            ("b", .mk .number none none none none)]) none (some ["a", "b"]) none,
          .mk .object (some [("a", .mk .number none none none none)]) none (some ["a"]) none]) "b"
        = some (mergeTypes ((([.mk .object (some [("a", .mk .number none none none none),
              ("b", .mk .number none none none none)]) none (some ["a", "b"]) none,
            .mk .object (some [("a", .mk .number none none none none)]) none (some ["a"]) none]
            : List TypeDefinition).filter (fun t => hasProp t "b")).filterMap
              (fun t => getProp t "b"))) :=
  c2_mergeObject_required_partition.2.1
    (.mk .object (some [("a", .mk .number none none none none),
        ("b", .mk .number none none none none)]) none (some ["a", "b"]) none)
    [.mk .object (some [("a", .mk .number none none none none)]) none (some ["a"]) none] "b"
    ⟨.mk .object (some [("a", .mk .number none none none none),
        ("b", .mk .number none none none none)]) none (some ["a", "b"]) none,
      by simp, by decide⟩
    ⟨.mk .object (some [("a", .mk .number none none none none)]) none (some ["a"]) none,
      by simp, by decide⟩

theorem filterMap_str_map (l : List String) :
    (l.map Json.str).filterMap
      (fun x => match x with | .str s => some s | _ => none) = l := by
  induction l with
  | nil => rfl
  | cons hd tl ih => simp [List.filterMap_cons, ih]

theorem filterMap_str_comp (l : List String) :
    List.filterMap
      ((fun x => match x with | Json.str s => some s | _ => none) ∘ Json.str) l = l := by
  induction l with
  | nil => rfl
  | cons hd tl ih => simp [List.filterMap_cons, Function.comp, ih]

theorem schemaRequired_convert_object (props : Option (List (String × TypeDefinition)))
    (itms : Option TypeDefinition) (reqOpt : Option (List String)) (d : Option String) :
    schemaRequired (convertTypeToJsonSchema (.mk .object props itms reqOpt d))
      = requiredOf (.mk .object props itms reqOpt d) := by
  rcases reqOpt with _ | req
  · rcases props with _ | l
    · simp [convertTypeToJsonSchema, jsonLookup, schemaRequired, requiredOf,
        TypeDefinition.required, List.lookup]
    · by_cases hp : (convertSchemaProps l).length > 0 <;>
        simp [convertTypeToJsonSchema, jsonLookup, schemaRequired, requiredOf,
          TypeDefinition.required, List.lookup, hp]
  · rcases req with _ | ⟨r0, rs⟩
    · rcases props with _ | l
      · simp [convertTypeToJsonSchema, jsonLookup, schemaRequired, requiredOf,
          TypeDefinition.required, List.lookup]
      · by_cases hp : (convertSchemaProps l).length > 0 <;>
          simp [convertTypeToJsonSchema, jsonLookup, schemaRequired, requiredOf,
            TypeDefinition.required, List.lookup, hp]
    · rcases props with _ | l
      · simp [convertTypeToJsonSchema, jsonLookup, schemaRequired, requiredOf,
          TypeDefinition.required, List.lookup, filterMap_str_map, filterMap_str_comp]
      · by_cases hp : (convertSchemaProps l).length > 0 <;>
          simp [convertTypeToJsonSchema, jsonLookup, schemaRequired, requiredOf,
            TypeDefinition.required, List.lookup, hp, filterMap_str_map, filterMap_str_comp]

theorem zodFieldLine_stem (requiredFields : List String) (indent : Nat) (key : String)
    (value : TypeDefinition) :
    zodFieldLine requiredFields indent key value
      = zodFieldStem indent key value
        ++ (if key ∈ requiredFields then "," else ".optional(),") := by
  by_cases hk : key ∈ requiredFields <;>
    by_cases hnl : (convertTypeToZod value (indent + 2)).contains '\n' <;>
      simp [zodFieldLine, zodFieldStem, hk, hnl]

/-- Claim C8: for an object-kind Type Node satisfying the required-subset
invariant, all four renderers classify each top-level property
identically: the property is in the Schema-notation output's `required`
list iff the typed-interface renderer emits its field line without the
optional `?` suffix, iff the runtime-validator renderer emits it without
the `.optional()` combinator, iff the documentation row says `Yes` in the
Required column. -/
theorem c8_renderer_required_agreement
    (l : List (String × TypeDefinition)) (itms : Option TypeDefinition)
    (reqOpt : Option (List String)) (d : Option String)
    (hsub : ∀ q ∈ requiredOf (.mk .object (some l) itms reqOpt d), q ∈ l.map Prod.fst)
    (indent : Nat) (p : String) (v : TypeDefinition) (hmem : (p, v) ∈ l) :
    (p ∈ schemaRequired (convertTypeToJsonSchema (.mk .object (some l) itms reqOpt d)) ↔
        tsFieldLine (requiredOf (.mk .object (some l) itms reqOpt d)) indent p v
          = strRepeat "  " indent ++ "  " ++ p ++ ": "
            ++ convertTypeToTypeScript v (indent + 1) ++ ";")
    ∧ (p ∈ schemaRequired (convertTypeToJsonSchema (.mk .object (some l) itms reqOpt d)) ↔
        zodFieldLine (requiredOf (.mk .object (some l) itms reqOpt d)) indent p v
          = zodFieldStem indent p v ++ ",")
    ∧ (p ∈ schemaRequired (convertTypeToJsonSchema (.mk .object (some l) itms reqOpt d)) ↔
        apiDocRow (requiredOf (.mk .object (some l) itms reqOpt d)) p v
          = "| " ++ p ++ " | `" ++ getTypeDisplayName v ++ "` | " ++ "Yes" ++ " | "
            ++ getTypeDescription v ++ " |") := by
  rw [schemaRequired_convert_object]
  refine ⟨?_, ?_, ?_⟩
  · by_cases hk : p ∈ requiredOf (.mk .object (some l) itms reqOpt d)
    · refine iff_of_true hk ?_
      simp [tsFieldLine, hk]
    · refine iff_of_false hk ?_
      intro hc
      have hlen := congrArg String.length hc
      have hq : ("?" : String).length = 1 := rfl
      simp [tsFieldLine, hk, String.length_append, hq] at hlen <;> omega
  · rw [zodFieldLine_stem]
    by_cases hk : p ∈ requiredOf (.mk .object (some l) itms reqOpt d)
    · refine iff_of_true hk ?_
      rw [if_pos hk]
    · refine iff_of_false hk ?_
      rw [if_neg hk]
      intro hc
      have hlen := congrArg String.length hc
      have h1 : (".optional()," : String).length = 12 := rfl
      have h2 : ("," : String).length = 1 := rfl
      simp [String.length_append, h1, h2] at hlen <;> omega
  · by_cases hk : p ∈ requiredOf (.mk .object (some l) itms reqOpt d)
    · refine iff_of_true hk ?_
      simp [apiDocRow, hk]
    · refine iff_of_false hk ?_
      intro hc
      have hlen := congrArg String.length hc
      have h4 : ("No" : String).length = 2 := rfl
      have h8 : ("Yes" : String).length = 3 := rfl
      simp [apiDocRow, hk, String.length_append, h4, h8] at hlen <;> omega

/-- Witness for C8 at a concrete node `{name: string}` with
`required = ["name"]`. -/
theorem c8_renderer_required_agreement_witness :
    (("name" : String) ∈ schemaRequired (convertTypeToJsonSchema (.mk .object
        (some [("name", .mk .string none none none none)]) none (some ["name"]) none)) ↔
      tsFieldLine (requiredOf (.mk .object (some [("name", .mk .string none none none none)])
          none (some ["name"]) none)) 0 "name" (.mk .string none none none none)
        = strRepeat "  " 0 ++ "  " ++ "name" ++ ": "
          ++ convertTypeToTypeScript (.mk .string none none none none) 1 ++ ";")
    ∧ (("name" : String) ∈ schemaRequired (convertTypeToJsonSchema (.mk .object
        (some [("name", .mk .string none none none none)]) none (some ["name"]) none)) ↔
      zodFieldLine (requiredOf (.mk .object (some [("name", .mk .string none none none none)])
          none (some ["name"]) none)) 0 "name" (.mk .string none none none none)
        = zodFieldStem 0 "name" (.mk .string none none none none) ++ ",")
    ∧ (("name" : String) ∈ schemaRequired (convertTypeToJsonSchema (.mk .object
        (some [("name", .mk .string none none none none)]) none (some ["name"]) none)) ↔
      apiDocRow (requiredOf (.mk .object (some [("name", .mk .string none none none none)])
          none (some ["name"]) none)) "name" (.mk .string none none none none)
        = "| " ++ "name" ++ " | `" ++ getTypeDisplayName (.mk .string none none none none)
          ++ "` | " ++ "Yes" ++ " | "
          ++ getTypeDescription (.mk .string none none none none) ++ " |") :=
  c8_renderer_required_agreement [("name", .mk .string none none none none)] none
    (some ["name"]) none (by simp [requiredOf, TypeDefinition.required]) 0 "name"
    (.mk .string none none none none) (by simp)

theorem inferProps_keys (l : List (String × Json)) :
    (inferProps l).map Prod.fst = l.map Prod.fst := by
  induction l with
  | nil => rfl
  | cons hd tl ih =>
    obtain ⟨k, v⟩ := hd
    simp [inferProps, ih]

theorem reqInvProps_iff (l : List (String × TypeDefinition)) :
    reqInvProps (some l) = true ↔ ∀ kv ∈ l, reqInv kv.2 = true := by
  induction l with
  | nil => simp [reqInvProps]
  | cons hd tl ih =>
    obtain ⟨k, v⟩ := hd
    simp [reqInvProps, Bool.and_eq_true, ih]

theorem lookup_mem {β : Type} (l : List (String × β)) (p : String) (v : β)
    (h : l.lookup p = some v) : ∃ k, (k, v) ∈ l := by
  induction l with
  | nil => simp [List.lookup] at h
  | cons hd tl ih =>
    obtain ⟨k2, v2⟩ := hd
    rw [List.lookup] at h
    by_cases hk : p == k2
    · simp [hk] at h
      exact ⟨k2, by simp [h]⟩
    · simp [hk] at h
      obtain ⟨k, hmem⟩ := ih h
      exact ⟨k, List.mem_cons_of_mem _ hmem⟩

theorem reqInv_getProp {t : TypeDefinition} {p : String} {v : TypeDefinition}
    (ht : reqInv t = true) (h : getProp t p = some v) : reqInv v = true := by
  obtain ⟨k, props, itms, req, d⟩ := t
  simp only [getProp, TypeDefinition.properties] at h
  cases props with
  | none => simp at h
  | some l =>
    obtain ⟨k', hmem⟩ := lookup_mem l p v h
    simp only [reqInv, Bool.and_eq_true] at ht
    exact (reqInvProps_iff l).mp ht.1.2 (k', v) hmem

theorem reqInv_items {t : TypeDefinition} {i : TypeDefinition}
    (ht : reqInv t = true) (h : t.items = some i) : reqInv i = true := by
  obtain ⟨k, props, itms, req, d⟩ := t
  simp only [TypeDefinition.items] at h
  subst h
  simp only [reqInv, Bool.and_eq_true] at ht
  have := ht.2
  simpa [reqInvItems] using this

theorem mergePropEntry_fst_cases (t0 : TypeDefinition) (rest : List TypeDefinition) (p : String)
    (pr : String × TypeDefinition) (h : (mergePropEntry t0 rest p).1 = some pr) :
    ∃ pt, pr = (p, mergeTypes pt) ∧ tlistSize pt < tlistSize (t0 :: rest)
      ∧ ∀ u ∈ pt, ∃ t ∈ t0 :: rest, getProp t p = some u := by
  simp only [mergePropEntry] at h
  split_ifs at h with hc hp
  · refine ⟨(t0 :: rest).filterMap (fun t => getProp t p), ?_, ?_, ?_⟩
    · simp only [Option.some.injEq] at h
      exact h.symm
    · apply tlistSize_filterMap_lt
      · intro t r hr; exact getProp_size hr
      · have := (length_filter_eq_iff _ _).mp hc t0 (by simp)
        exact ⟨t0, by simp, by simpa [hasProp] using this⟩
    · intro u hu
      rw [List.mem_filterMap] at hu
      exact hu
  · refine ⟨((t0 :: rest).filter (fun t => hasProp t p)).filterMap (fun t => getProp t p),
      ?_, ?_, ?_⟩
    · simp only [Option.some.injEq] at h
      exact h.symm
    · calc tlistSize (((t0 :: rest).filter (fun t => hasProp t p)).filterMap
            (fun t => getProp t p))
          < tlistSize ((t0 :: rest).filter (fun t => hasProp t p)) := by
            apply tlistSize_filterMap_lt
            · intro t r hr; exact getProp_size hr
            · have hne : (t0 :: rest).filter (fun t => hasProp t p) ≠ [] := by
                intro hcon
                rw [hcon] at hp
                simp at hp
              obtain ⟨u, hu⟩ := List.exists_mem_of_ne_nil _ hne
              refine ⟨u, hu, ?_⟩
              have := List.of_mem_filter hu
              simpa [hasProp] using this
        _ ≤ tlistSize (t0 :: rest) := tlistSize_filter_le _ _
    · intro u hu
      rw [List.mem_filterMap] at hu
      obtain ⟨t, ht, hg⟩ := hu
      exact ⟨t, List.mem_of_mem_filter ht, hg⟩

theorem infer_reqInv : ∀ v, reqInv (inferType v) = true := by
  have hmut := inferType.mutual_induct
    (fun v => reqInv (inferType v) = true)
    (fun l => reqInvProps (some (inferProps l)) = true)
  apply (hmut ?_ ?_ ?_ ?_ ?_ ?_ ?_ ?_ ?_).1
  · simp [inferType, reqInv, reqInvProps, reqInvItems]
  · intro s; simp [inferType, reqInv, reqInvProps, reqInvItems]
  · intro n; simp [inferType, reqInv, reqInvProps, reqInvItems]
  · intro b; simp [inferType, reqInv, reqInvProps, reqInvItems]
  · simp [inferType, reqInv, reqInvProps, reqInvItems]
  · intro x tail ih
    simp [inferType, reqInv, reqInvProps, reqInvItems, ih]
  · intro fields ih
    simp only [inferType, reqInv, Bool.and_eq_true]
    refine ⟨⟨?_, ih⟩, by simp [reqInvItems]⟩
    rw [Bool.or_eq_true]
    right
    rw [List.all_eq_true]
    intro p hp
    simp only [decide_eq_true_eq]
    simp only [requiredOf, TypeDefinition.required] at hp
    simp only [propKeys, TypeDefinition.properties, inferProps_keys]
    exact hp
  · simp [inferProps, reqInvProps]
  · intro k v rest ihv ihrest
    simp [inferProps, reqInvProps, Bool.and_eq_true, ihv]
    exact ihrest

theorem merge_preserves_reqInv : ∀ (n : Nat) (types : List TypeDefinition),
    tlistSize types ≤ n → (∀ t ∈ types, reqInv t = true) →
    reqInv (mergeObjectTypeDefinitions types) = true ∧ reqInv (mergeTypes types) = true := by
  intro n
  induction n with
  | zero =>
    intro types hsize _
    rcases types with _ | ⟨t, ts⟩
    · constructor
      · simp [mergeObjectTypeDefinitions, reqInv, reqInvProps, reqInvItems, requiredOf,
          propKeys, TypeDefinition.required, TypeDefinition.properties]
      · simp [mergeTypes, reqInv, reqInvProps, reqInvItems]
    · have := tdSize_pos t
      simp [tlistSize] at hsize
      omega
  | succ n ih =>
    intro types hsize hall
    rcases types with _ | ⟨t0, rest⟩
    · constructor
      · simp [mergeObjectTypeDefinitions, reqInv, reqInvProps, reqInvItems, requiredOf,
          propKeys, TypeDefinition.required, TypeDefinition.properties]
      · simp [mergeTypes, reqInv, reqInvProps, reqInvItems]
    · have hOTD : reqInv (mergeObjectTypeDefinitions (t0 :: rest)) = true := by
        have hprops : ∀ kv ∈ ((dedupFirst ((t0 :: rest).flatMap propKeys)).map
            (fun p => mergePropEntry t0 rest p)).filterMap Prod.fst, reqInv kv.2 = true := by
          intro kv hkv
          rw [List.mem_filterMap] at hkv
          obtain ⟨e, he, hfst⟩ := hkv
          rw [List.mem_map] at he
          obtain ⟨q, hq, he⟩ := he
          subst he
          obtain ⟨pt, hpr, hlt, hmem⟩ := mergePropEntry_fst_cases t0 rest q kv hfst
          rw [hpr]
          apply (ih pt (by omega) ?_).2
          intro u hu
          obtain ⟨t, ht, hg⟩ := hmem u hu
          exact reqInv_getProp (hall t ht) hg
        have hsubset : ∀ p ∈ requiredOf (mergeObjectTypeDefinitions (t0 :: rest)),
            hasProp (mergeObjectTypeDefinitions (t0 :: rest)) p = true := by
          intro p hp
          have hallp := (mergeOTD_required_iff t0 rest p).mp hp
          have hx : ∃ t ∈ t0 :: rest, hasProp t p = true := ⟨t0, by simp, hallp t0 (by simp)⟩
          rw [hasProp, mergeOTD_getProp t0 rest p hx]
          have hc : ((t0 :: rest).filter (fun t => hasProp t p)).length = (t0 :: rest).length :=
            (length_filter_eq_iff _ _).mpr hallp
          rw [mergePropEntry_fst_required t0 rest p hc]
          rfl
        rw [mergeOTD_cons_eq]
        simp only [reqInv, Bool.and_eq_true]
        refine ⟨⟨?_, (reqInvProps_iff _).mpr hprops⟩, by simp [reqInvItems]⟩
        rw [Bool.or_eq_true]
        right
        rw [List.all_eq_true]
        intro p hp
        simp only [decide_eq_true_eq]
        have hp' : p ∈ requiredOf (mergeObjectTypeDefinitions (t0 :: rest)) := by
          rw [mergeOTD_cons_eq]
          simpa [requiredOf, TypeDefinition.required] using hp
        have := hsubset p hp'
        rw [hasProp_iff] at this
        rw [mergeOTD_cons_eq] at this
        simpa [propKeys, TypeDefinition.properties] using this
      refine ⟨hOTD, ?_⟩
      rcases rest with _ | ⟨t1, rest2⟩
      · simp only [mergeTypes]
        exact hall t0 (by simp)
      · rw [mergeTypes]
        by_cases hik : ((t0 :: t1 :: rest2).all (fun t => t.kind = t0.kind)) = true
        · simp only [hik, if_true]
          by_cases harr : (t0.kind = .array ∧ t0.items.isSome = true)
          · rw [dif_pos harr]
            simp only [reqInv, Bool.and_eq_true]
            refine ⟨⟨by simp, by simp [reqInvProps]⟩, ?_⟩
            simp only [reqInvItems]
            have hlt : tlistSize (((t0 :: t1 :: rest2).filter
                (fun t => t.items.isSome)).filterMap (fun t => t.items))
                < tlistSize (t0 :: t1 :: rest2) := by
              calc tlistSize (((t0 :: t1 :: rest2).filter
                    (fun t => t.items.isSome)).filterMap (fun t => t.items))
                  < tlistSize ((t0 :: t1 :: rest2).filter (fun t => t.items.isSome)) := by
                    apply tlistSize_filterMap_lt
                    · intro t r hr; exact items_size hr
                    · refine ⟨t0, ?_, harr.2⟩
                      simp [List.mem_filter, harr.2]
                _ ≤ tlistSize (t0 :: t1 :: rest2) := tlistSize_filter_le _ _
            apply (ih _ (by omega) ?_).2
            intro u hu
            rw [List.mem_filterMap] at hu
            obtain ⟨t, ht, hg⟩ := hu
            exact reqInv_items (hall t (List.mem_of_mem_filter ht)) hg
          · rw [dif_neg harr]
            by_cases hobj : t0.kind = .object
            · rw [if_pos hobj]
              exact hOTD
            · rw [if_neg hobj]
              exact hall t0 (by simp)
        · have hik' : ((t0 :: t1 :: rest2).all (fun t => t.kind = t0.kind)) = false := by
            simpa using hik
          simp only [hik', Bool.false_eq_true, if_false]
          simp [reqInv, reqInvProps, reqInvItems]

/-- Claim C9: every Type Node returned by `inferType` or
`inferTypeFromExamples` satisfies, recursively at every nested node, that
an object node's `required` list is a subset of its `properties` keys;
single-value inference makes `required` exactly the key list, and the
object-merge algorithm preserves the invariant. -/
theorem c9_required_subset_invariant :
    (∀ v, reqInv (inferType v) = true)
    ∧ (∀ examples, reqInv (inferTypeFromExamples examples) = true)
    ∧ (∀ fields, (inferType (.obj fields)).required = some (fields.map Prod.fst))
    ∧ (∀ types : List TypeDefinition, (∀ t ∈ types, reqInv t = true) →
        reqInv (mergeObjectTypeDefinitions types) = true) := by
  refine ⟨infer_reqInv, ?_, fun fields => rfl, ?_⟩
  · intro examples
    rcases examples with _ | ⟨e, es⟩
    · simp [inferTypeFromExamples, reqInv, reqInvProps, reqInvItems, requiredOf, propKeys,
        TypeDefinition.required, TypeDefinition.properties]
    · rcases es with _ | ⟨e1, es2⟩
      · simp only [inferTypeFromExamples]
        exact infer_reqInv e
      · rw [inferTypeFromExamples]
        by_cases hao : (((e :: e1 :: es2).map inferType).all
            (fun t => t.kind = .object)) = true
        · simp only [hao, if_true]
          apply (merge_preserves_reqInv (tlistSize (((e :: e1 :: es2).map inferType).filter
            (fun t => t.kind = .object))) _ le_rfl ?_).1
          intro t ht
          have hmem := List.mem_of_mem_filter ht
          rw [List.mem_map] at hmem
          obtain ⟨v, _, hv⟩ := hmem
          rw [← hv]
          exact infer_reqInv v
        · have hao' : (((e :: e1 :: es2).map inferType).all
              (fun t => t.kind = .object)) = false := by simpa using hao
          simp only [hao', Bool.false_eq_true, if_false]
          cases hf : ((e :: e1 :: es2).map inferType).find? (fun t => !(t.kind = .null)) with
          | none =>
            simp [reqInv, reqInvProps, reqInvItems, requiredOf, propKeys,
              TypeDefinition.required, TypeDefinition.properties]
          | some t =>
            simp only [Option.getD_some]
            have hmem := List.mem_of_find?_eq_some hf
            rw [List.mem_map] at hmem
            obtain ⟨v, _, hv⟩ := hmem
            rw [← hv]
            exact infer_reqInv v
  · intro types h
    exact (merge_preserves_reqInv (tlistSize types) types le_rfl h).1

/-- Witness for C9 at a concrete input: merging a single object node with
a valid required list preserves the invariant. -/
theorem c9_required_subset_invariant_witness :
    reqInv (mergeObjectTypeDefinitions
      [.mk .object (some [("a", .mk .number none none none none)]) none (some ["a"]) none])
      = true :=
  c9_required_subset_invariant.2.2.2
    [.mk .object (some [("a", .mk .number none none none none)]) none (some ["a"]) none]
    (by
      intro t ht
      simp only [List.mem_singleton] at ht
      subst ht
      simp [reqInv, reqInvProps, reqInvItems, requiredOf, propKeys,
        TypeDefinition.required, TypeDefinition.properties])

theorem wfTProps_iff (l : List (String × TypeDefinition)) :
    wfTProps l = true ↔ ∀ kv ∈ l, wfT kv.2 = true := by
  induction l with
  | nil => simp [wfTProps]
  | cons hd tl ih =>
    obtain ⟨k, v⟩ := hd
    simp [wfTProps, Bool.and_eq_true, ih]

theorem wfT_inferType : ∀ v, Json.wf v = true → wfT (inferType v) = true := by
  have hmut := inferType.mutual_induct
    (fun v => Json.wf v = true → wfT (inferType v) = true)
    (fun l => wfFields l = true → wfTProps (inferProps l) = true)
  apply (hmut ?_ ?_ ?_ ?_ ?_ ?_ ?_ ?_ ?_).1
  · intro _; simp [inferType, wfT]
  · intro s _; simp [inferType, wfT]
  · intro n _; simp [inferType, wfT]
  · intro b _; simp [inferType, wfT]
  · intro _; simp [inferType, wfT]
  · intro x tail ih hwf
    simp only [Json.wf, wfItems, Bool.and_eq_true] at hwf
    simp only [inferType, wfT]
    exact ih hwf.1
  · intro fields ih hwf
    simp only [Json.wf, Bool.and_eq_true, decide_eq_true_eq] at hwf
    simp only [inferType, wfT, Bool.and_eq_true, decide_eq_true_eq]
    refine ⟨⟨?_, ?_⟩, ih hwf.2⟩
    · rw [inferProps_keys]
    · rw [inferProps_keys]; exact hwf.1
  · intro _; simp [inferProps, wfTProps]
  · intro k v rest ihv ihrest hwf
    simp only [wfFields, Bool.and_eq_true] at hwf
    simp only [inferProps, wfTProps, Bool.and_eq_true]
    exact ⟨ihv hwf.1, ihrest hwf.2⟩

theorem wfT_null_shape (t : TypeDefinition) (ht : wfT t = true) (hk : t.kind = .null) :
    t = .mk .null none none none none := by
  obtain ⟨k, props, itms, req, d⟩ := t
  simp only [TypeDefinition.kind] at hk
  subst hk
  rcases props with _ | l <;> rcases itms with _ | i <;> rcases req with _ | r <;>
    rcases d with _ | dd <;> simp_all [wfT]

theorem filterMap_fst_map_entries {β γ : Type} (g : String → Option β × γ) (f : String → β) :
    ∀ names : List String, (∀ p ∈ names, (g p).1 = some (f p)) →
    ((names.map g).filterMap Prod.fst) = names.map f := by
  intro names
  induction names with
  | nil => intro _; rfl
  | cons n ns ih =>
    intro h
    simp [List.filterMap_cons, h n (by simp), ih (fun p hp => h p (by simp [hp]))]

theorem flatten_map_snd_entries {β : Type} (g : String → Option β × List String) :
    ∀ names : List String, (∀ p ∈ names, (g p).2 = [p]) →
    (((names.map g).map Prod.snd).flatten) = names := by
  intro names
  induction names with
  | nil => intro _; rfl
  | cons n ns ih =>
    intro h
    simp only [List.map_cons, h n (by simp), List.flatten_cons]
    rw [ih (fun p hp => h p (by simp [hp]))]
    rfl

theorem map_fst_lookup_eq_self {l : List (String × TypeDefinition)}
    (f : String → TypeDefinition) (hnd : (l.map Prod.fst).Nodup)
    (hf : ∀ p v, l.lookup p = some v → f p = v) :
    (l.map Prod.fst).map (fun p => (p, f p)) = l := by
  induction l with
  | nil => rfl
  | cons hd tl ih =>
    obtain ⟨k, v⟩ := hd
    simp only [List.map_cons]
    have h1 : f k = v := hf k v (by simp [List.lookup])
    rw [h1]
    congr 1
    apply ih
    · exact (List.nodup_cons.mp (by simpa using hnd)).2
    · intro p v' hlk
      apply hf
      have hpk : p ≠ k := by
        intro hc
        subst hc
        have hmem : p ∈ tl.map Prod.fst := by
          rw [← lookup_isSome_iff]
          simp [hlk]
        exact (List.nodup_cons.mp (by simpa using hnd)).1 hmem
      rw [List.lookup]
      have hbeq : (p == k) = false := by simpa using hpk
      rw [hbeq]
      exact hlk

theorem merge_pair_self : ∀ (n : Nat) (t : TypeDefinition), tdSize t ≤ n → wfT t = true →
    mergeTypes [t, t] = t
    ∧ (t.kind = .object → mergeObjectTypeDefinitions [t, t] = t) := by
  intro n
  induction n with
  | zero =>
    intro t hsz _
    have := tdSize_pos t
    omega
  | succ n ih =>
    intro t hsz ht
    obtain ⟨k, props, itms, req, d⟩ := t
    rcases k with _ | _ | _ | _ | _ | _
    case string =>
      rcases props with _ | l <;> rcases itms with _ | i <;> rcases req with _ | r <;>
        rcases d with _ | dd <;> simp_all [wfT]
      constructor
      · rw [mergeTypes]
        simp [TypeDefinition.kind, TypeDefinition.items]
      · intro hobj
        simp [TypeDefinition.kind] at hobj
    case number =>
      rcases props with _ | l <;> rcases itms with _ | i <;> rcases req with _ | r <;>
        rcases d with _ | dd <;> simp_all [wfT]
      constructor
      · rw [mergeTypes]
        simp [TypeDefinition.kind, TypeDefinition.items]
      · intro hobj
        simp [TypeDefinition.kind] at hobj
    case boolean =>
      rcases props with _ | l <;> rcases itms with _ | i <;> rcases req with _ | r <;>
        rcases d with _ | dd <;> simp_all [wfT]
      constructor
      · rw [mergeTypes]
        simp [TypeDefinition.kind, TypeDefinition.items]
      · intro hobj
        simp [TypeDefinition.kind] at hobj
    case null =>
      rcases props with _ | l <;> rcases itms with _ | i <;> rcases req with _ | r <;>
        rcases d with _ | dd <;> simp_all [wfT]
      constructor
      · rw [mergeTypes]
        simp [TypeDefinition.kind, TypeDefinition.items]
      · intro hobj
        simp [TypeDefinition.kind] at hobj
    case array =>
      rcases props with _ | l <;> rcases itms with _ | i <;> rcases req with _ | r <;>
        rcases d with _ | dd <;> simp_all [wfT]
      have hszi : tdSize i ≤ n := by
        have : tdSize i < tdSize (.mk .array none (some i) none none) :=
          items_size (by simp [TypeDefinition.items])
        omega
      have hIH : mergeTypes [i, i] = i := (ih i hszi ht).1
      constructor
      · rw [mergeTypes]
        simp [TypeDefinition.kind, TypeDefinition.items, hIH]
      · intro hobj
        simp [TypeDefinition.kind] at hobj
    case object =>
      rcases props with _ | l <;> rcases itms with _ | i <;> rcases req with _ | r <;>
        rcases d with _ | dd <;> simp_all [wfT]
      obtain ⟨⟨hr, hnd⟩, hprops⟩ := ht
      subst hr
      have hOTD : mergeObjectTypeDefinitions
          [TypeDefinition.mk .object (some l) none (some (l.map Prod.fst)) none,
           TypeDefinition.mk .object (some l) none (some (l.map Prod.fst)) none]
          = TypeDefinition.mk .object (some l) none (some (l.map Prod.fst)) none := by
        rw [mergeOTD_cons_eq]
        have hkeys : ((TypeDefinition.mk .object (some l) none (some (l.map Prod.fst)) none
            :: [TypeDefinition.mk .object (some l) none (some (l.map Prod.fst)) none])
            |>.flatMap propKeys) = l.map Prod.fst ++ l.map Prod.fst := by
          simp [propKeys, TypeDefinition.properties]
        rw [hkeys, dedupFirst_append_self _ hnd]
        have hhas : ∀ p ∈ l.map Prod.fst,
            hasProp (TypeDefinition.mk .object (some l) none (some (l.map Prod.fst)) none) p
              = true := by
          intro p hp
          rw [hasProp_iff]
          simpa [propKeys, TypeDefinition.properties] using hp
        have hcount : ∀ p ∈ l.map Prod.fst,
            (([TypeDefinition.mk .object (some l) none (some (l.map Prod.fst)) none,
               TypeDefinition.mk .object (some l) none (some (l.map Prod.fst)) none]
              : List TypeDefinition).filter (fun t => hasProp t p)).length
              = ([TypeDefinition.mk .object (some l) none (some (l.map Prod.fst)) none,
               TypeDefinition.mk .object (some l) none (some (l.map Prod.fst)) none]
              : List TypeDefinition).length := by
          intro p hp
          apply (length_filter_eq_iff _ _).mpr
          intro u hu
          rw [List.mem_cons, List.mem_cons] at hu
          rcases hu with hu | hu | hu
          · subst hu; exact hhas p hp
          · subst hu; exact hhas p hp
          · simp at hu
        have hstep1 : ∀ p ∈ l.map Prod.fst,
            (mergePropEntry (TypeDefinition.mk .object (some l) none (some (l.map Prod.fst)) none)
              [TypeDefinition.mk .object (some l) none (some (l.map Prod.fst)) none] p).1
            = some (p, mergeTypes (([TypeDefinition.mk .object (some l) none
                  (some (l.map Prod.fst)) none,
                TypeDefinition.mk .object (some l) none (some (l.map Prod.fst)) none]
                : List TypeDefinition).filterMap (fun u => getProp u p))) := by
          intro p hp
          exact mergePropEntry_fst_required _ _ p (hcount p hp)
        have hstep2 : ∀ p ∈ l.map Prod.fst,
            (mergePropEntry (TypeDefinition.mk .object (some l) none (some (l.map Prod.fst)) none)
              [TypeDefinition.mk .object (some l) none (some (l.map Prod.fst)) none] p).2
            = [p] := by
          intro p hp
          rw [mergePropEntry_snd]
          rw [if_pos (hcount p hp)]
        rw [filterMap_fst_map_entries _
          (fun p => (p, mergeTypes (([TypeDefinition.mk .object (some l) none
              (some (l.map Prod.fst)) none,
            TypeDefinition.mk .object (some l) none (some (l.map Prod.fst)) none]
            : List TypeDefinition).filterMap (fun u => getProp u p))))
          _ hstep1]
        rw [flatten_map_snd_entries _ _ hstep2]
        have hl : (l.map Prod.fst).map (fun p => (p, mergeTypes
            (([TypeDefinition.mk .object (some l) none (some (l.map Prod.fst)) none,
              TypeDefinition.mk .object (some l) none (some (l.map Prod.fst)) none]
              : List TypeDefinition).filterMap (fun u => getProp u p)))) = l := by
          apply map_fst_lookup_eq_self _ hnd
          intro p v hlk
          have hgp : getProp (TypeDefinition.mk .object (some l) none
              (some (l.map Prod.fst)) none) p = some v := by
            simp [getProp, TypeDefinition.properties, hlk]
          have hfm : (([TypeDefinition.mk .object (some l) none (some (l.map Prod.fst)) none,
              TypeDefinition.mk .object (some l) none (some (l.map Prod.fst)) none]
              : List TypeDefinition).filterMap (fun u => getProp u p)) = [v, v] := by
            simp [List.filterMap_cons, hgp]
          rw [hfm]
          have hszv : tdSize v ≤ n := by
            have := getProp_size hgp
            omega
          have hwfv : wfT v = true := by
            obtain ⟨k', hmem⟩ := lookup_mem l p v hlk
            exact (wfTProps_iff l).mp hprops (k', v) hmem
          exact (ih v hszv hwfv).1
        rw [hl]
      constructor
      · rw [mergeTypes]
        have hallk : (([TypeDefinition.mk .object (some l) none (some (l.map Prod.fst)) none,
            TypeDefinition.mk .object (some l) none (some (l.map Prod.fst)) none]
            : List TypeDefinition).all (fun t => t.kind
              = (TypeDefinition.mk .object (some l) none (some (l.map Prod.fst)) none).kind))
            = true := by
          simp
        simp only [hallk, if_true]
        rw [dif_neg (by simp [TypeDefinition.kind, TypeDefinition.items])]
        rw [if_pos (by simp [TypeDefinition.kind])]
        exact hOTD
      · intro _
        exact hOTD

/-- Claim C7: merging two identical examples yields exactly the
single-value inference of that example (every object field staying
required); stated over well-formed JSON values (JavaScript objects cannot
carry duplicate keys). -/
theorem c7_merge_pair_idempotent (v : Json) (h : Json.wf v = true) :
    inferTypeFromExamples [v, v] = inferType v := by
  have hwft := wfT_inferType v h
  rw [inferTypeFromExamples]
  simp only [List.map_cons, List.map_nil]
  by_cases hok : (inferType v).kind = .object
  · have hall : (([inferType v, inferType v] : List TypeDefinition).all
        (fun t => t.kind = .object)) = true := by
      simp [hok]
    simp only [hall, if_true]
    have hfilter : (([inferType v, inferType v] : List TypeDefinition).filter
        (fun t => t.kind = .object)) = [inferType v, inferType v] := by
      simp [List.filter, hok]
    rw [hfilter]
    exact (merge_pair_self (tdSize (inferType v)) (inferType v) le_rfl hwft).2 hok
  · have hall : (([inferType v, inferType v] : List TypeDefinition).all
        (fun t => t.kind = .object)) = false := by
      simp [hok]
    simp only [hall, Bool.false_eq_true, if_false]
    by_cases hnull : (inferType v).kind = .null
    · have hfind : (([inferType v, inferType v] : List TypeDefinition).find?
          (fun t => !(t.kind = .null))) = none := by
        rw [List.find?_eq_none]
        intro t htm
        rw [List.mem_cons, List.mem_cons] at htm
        rcases htm with htm | htm | htm
        · subst htm; simp [hnull]
        · subst htm; simp [hnull]
        · simp at htm
      rw [hfind]
      exact (wfT_null_shape (inferType v) hwft hnull).symm
    · have hfind : (([inferType v, inferType v] : List TypeDefinition).find?
          (fun t => !(t.kind = .null))) = some (inferType v) := by
        simp [List.find?_cons, hnull]
      rw [hfind]
      rfl

/-- Witness for C7 at a concrete input: two identical copies of `{a:1}`
merge to the single-value inference of `{a:1}`. -/
theorem c7_merge_pair_idempotent_witness :
    inferTypeFromExamples [.obj [("a", .num 1)], .obj [("a", .num 1)]]
      = inferType (.obj [("a", .num 1)]) :=
  c7_merge_pair_idempotent (.obj [("a", .num 1)]) (by decide)
